import Mathlib

/-!
Verification of the AfterImage rod-puzzle placement engine.

The embedded code is the placement state machine of the application
component (the `App` component): the piece data model, the drag
lifecycle (`startDrag`, `handleMove`, `handleEnd`), the `scatterPieces`
operation and `initPuzzle`.  Pixel-space quantities (pointer
coordinates, the container rectangle, the grab offset, the per-cell
pixel size) are modelled as rationals; grid-cell coordinates are
integers, matching the JavaScript numbers that hold integer values
after `Math.round` / `Math.floor`.

Randomness (`Math.random`) is modelled by an explicit stream of
rational samples in `[0, 1)`, consumed one pair per scattered piece,
and the comparator shuffle `sort(() => Math.random() - 0.5)` by an
arbitrary function `List Piece → List Piece` that is assumed (where a
claim needs it) to permute its input.
-/

namespace AfterImage

/-- The `Piece` interface of `types.ts`.  `imageUrl`/`videoUrl` are
carried as optional strings exactly as in the source; the core never
reads them. -/
structure Piece where
  id : String
  originalX : Int
  originalY : Int
  currentX : Int
  currentY : Int
  width : Int
  height : Int
  imageUrl : Option String := none
  videoUrl : Option String := none
  isLocked : Bool
deriving DecidableEq, Repr

/-- The grab offset recorded at drag start (`offset` state in `App`),
in container pixels. -/
structure Offset where
  x : ℚ
  y : ℚ
deriving DecidableEq, Repr

/-- The puzzle-relevant mutable state of the `App` component:
the piece list, the currently dragging id (nullable), the grab offset,
and the global solved flag. -/
structure AppState where
  pieces : List Piece
  draggingId : Option String
  offset : Offset
  isSolved : Bool

/-- JavaScript `Math.round`: round half towards positive infinity. -/
def jsRound (x : ℚ) : Int := Int.floor (x + 1/2)

/-- JavaScript `Math.floor` on a rational. -/
def jsFloor (x : ℚ) : Int := Int.floor x

/-- `handleMove` from `App`: with an active drag, translate the
pointer into container-relative coordinates, subtract the grab
offset, divide by the per-cell pixel size, round, and clamp the
dragged piece's cell to `[0, gridSize - width] × [0, gridSize - height]`.
Only pieces whose id equals the dragging id are updated.  When
`draggingId` is null the move handler is not even installed, so the
state is unchanged.  The body of the `prev.map` is split out as
`movePiece`. -/
def movePiece (gridSize : Int) (cellSize : ℚ) (off : Offset)
    (relativeX relativeY : ℚ) (did : String) (p : Piece) : Piece :=
  if p.id = did then
    let nextX := jsRound ((relativeX - off.x) / cellSize)
    let nextY := jsRound ((relativeY - off.y) / cellSize)
    let nextX := max 0 (min (gridSize - p.width) nextX)
    let nextY := max 0 (min (gridSize - p.height) nextY)
    { p with currentX := nextX, currentY := nextY }
  else p

def handleMove (gridSize : Int) (containerSize : ℚ) (rectLeft rectTop : ℚ)
    (clientX clientY : ℚ) (s : AppState) : AppState :=
  match s.draggingId with
  | none => s
  | some did =>
    let cellSize : ℚ := containerSize / (gridSize : ℚ)
    let relativeX := clientX - rectLeft
    let relativeY := clientY - rectTop
    { s with pieces := s.pieces.map (movePiece gridSize cellSize s.offset relativeX relativeY did) }

/-- The lock update inside `handleEnd`:
`p.id === draggingId ? { ...p, isLocked: true } : p`. -/
def lockIf (did : String) (p : Piece) : Piece :=
  if p.id = did then { p with isLocked := true } else p

/-- `handleEnd` from `App`: on pointer-up with an active drag, look up
the dragged piece; if it sits exactly on its home cell, mark it
locked, re-order the list as locked pieces followed by unlocked
pieces (both groups keeping their relative order via `filter`), and
set the solved flag when every piece is locked; otherwise leave the
pieces untouched.  In all cases the dragging id is cleared.  With no
active drag the handler is not installed, so the state is unchanged. -/
def handleEnd (s : AppState) : AppState :=
  match s.draggingId with
  | none => s
  | some did =>
    match s.pieces.find? (fun p => p.id = did) with
    | some draggedPiece =>
      if draggedPiece.currentX = draggedPiece.originalX ∧
         draggedPiece.currentY = draggedPiece.originalY then
        let updated := s.pieces.map (lockIf did)
        let locked := updated.filter (fun p => p.isLocked)
        let unlocked := updated.filter (fun p => !p.isLocked)
        let final := locked ++ unlocked
        { pieces := final
          draggingId := none
          offset := s.offset
          isSolved := if final.all (fun p => p.isLocked) then true else s.isSolved }
      else
        { s with draggingId := none }
    | none => { s with draggingId := none }

/-- `startDrag` from `App`: ignore locked pieces; otherwise move the
clicked piece to the end of the list (top of the draw order), record
its id as dragging, and record the pixel offset between the pointer
and the piece's current pixel origin. -/
def startDrag (gridSize : Int) (containerSize : ℚ) (rectLeft rectTop : ℚ)
    (clientX clientY : ℚ) (clickedPiece : Piece) (s : AppState) : AppState :=
  if clickedPiece.isLocked then s
  else
    let cellSize : ℚ := containerSize / (gridSize : ℚ)
    let relativeX := clientX - rectLeft
    let relativeY := clientY - rectTop
    { pieces := (s.pieces.filter (fun p => ¬ p.id = clickedPiece.id)) ++ [clickedPiece]
      draggingId := some clickedPiece.id
      offset := { x := relativeX - (clickedPiece.currentX : ℚ) * cellSize
                  y := relativeY - (clickedPiece.currentY : ℚ) * cellSize }
      isSolved := s.isSolved }

/-- One piece of the `unlocked.map` inside `scatterPieces`:
`currentX: Math.floor(Math.random() * (gridSize - p.width + 1))` and
likewise for `currentY`, with the two samples given explicitly. -/
def scatterOne (gridSize : Int) (rx ry : ℚ) (p : Piece) : Piece :=
  { p with
    currentX := jsFloor (rx * ((gridSize : ℚ) - (p.width : ℚ) + 1))
    currentY := jsFloor (ry * ((gridSize : ℚ) - (p.height : ℚ) + 1)) }

/-- The `unlocked.map(...)` of `scatterPieces`, consuming the random
stream one `(x, y)` pair per piece, in list order. -/
def scatterList (gridSize : Int) (rand : Nat → ℚ × ℚ) : Nat → List Piece → List Piece
  | _, [] => []
  | i, p :: ps =>
      scatterOne gridSize (rand i).1 (rand i).2 p :: scatterList gridSize rand (i + 1) ps

/-- `scatterPieces` from `App`: split the list into locked and
unlocked (each `filter` keeping relative order), re-sample every
unlocked piece's cell, shuffle the scattered group with the random
comparator sort (modelled by the function `shuffle`), and put the
locked group first.  The dragging id, offset and solved flag are not
touched. -/
def scatterPieces (gridSize : Int) (rand : Nat → ℚ × ℚ)
    (shuffle : List Piece → List Piece) (s : AppState) : AppState :=
  let locked := s.pieces.filter (fun p => p.isLocked)
  let unlocked := s.pieces.filter (fun p => !p.isLocked)
  let scattered := scatterList gridSize rand 0 unlocked
  let scatteredShuffled := shuffle scattered
  { s with pieces := locked ++ scatteredShuffled }

/-- `initPuzzle` from `App`: replace the pieces wholesale with the
freshly generated and shuffled list and clear the solved flag.  The
source calls `setPieces`, `setIsSolved(false)` and `setGeminiHint(null)`
but does NOT call `setDraggingId(null)` or `setOffset`, so the
dragging id and offset carry over unchanged. -/
def initPuzzle (generated : List Piece) (s : AppState) : AppState :=
  { pieces := generated
    draggingId := s.draggingId
    offset := s.offset
    isSolved := false }

/-- A normalized interaction event, fed synchronously into the state
machine (spec §9): pointer-move, pointer-up, pointer-down on a piece,
and the scatter button.  Events carry the pixel-space data the
handlers read from the DOM, and scatter carries its randomness. -/
inductive Event where
  | move (rectLeft rectTop clientX clientY : ℚ)
  | release
  | start (rectLeft rectTop clientX clientY : ℚ) (clickedPiece : Piece)
  | scatter (rand : Nat → ℚ × ℚ) (shuffle : List Piece → List Piece)

/-- Dispatch one event to the corresponding handler of `App`. -/
def step (gridSize : Int) (containerSize : ℚ) (s : AppState) : Event → AppState
  | Event.move rectLeft rectTop clientX clientY =>
      handleMove gridSize containerSize rectLeft rectTop clientX clientY s
  | Event.release => handleEnd s
  | Event.start rectLeft rectTop clientX clientY clickedPiece =>
      startDrag gridSize containerSize rectLeft rectTop clientX clientY clickedPiece s
  | Event.scatter rand shuffle => scatterPieces gridSize rand shuffle s

/-- Run a sequence of interaction events from a state. -/
def run (gridSize : Int) (containerSize : ℚ) (s : AppState) : List Event → AppState
  | [] => s
  | e :: es => run gridSize containerSize (step gridSize containerSize s e) es

/-- The conditions under which an event can actually reach the
handlers in the running application: a pointer-down is delivered on a
piece that is rendered, i.e. an element of the current list
(`pieces.map` in the JSX), `Math.random()` only returns samples in
`[0, 1)`, and the comparator sort returns a permutation of its
input. -/
def EventOK (s : AppState) : Event → Prop
  | Event.move _ _ _ _ => True
  | Event.release => True
  | Event.start _ _ _ _ clickedPiece => clickedPiece ∈ s.pieces
  | Event.scatter rand shuffle =>
      (∀ i, 0 ≤ (rand i).1 ∧ (rand i).1 < 1 ∧ 0 ≤ (rand i).2 ∧ (rand i).2 < 1) ∧
      (∀ l, List.Perm (shuffle l) l)

/-- Every event of the trace is deliverable in the state it meets. -/
def TraceOK (gridSize : Int) (containerSize : ℚ) (s : AppState) : List Event → Prop
  | [] => True
  | e :: es => EventOK s e ∧ TraceOK gridSize containerSize (step gridSize containerSize s e) es

/-- The grid-bounds invariant (spec §3): every piece's footprint lies
fully inside the grid. -/
def InBounds (gridSize : Int) (s : AppState) : Prop :=
  ∀ p ∈ s.pieces, 0 ≤ p.currentX ∧ p.currentX + p.width ≤ gridSize ∧
    0 ≤ p.currentY ∧ p.currentY + p.height ≤ gridSize

/-- No locked piece carries the currently dragging id: locked pieces
are not drag-eligible.  This holds whenever a drag was started through
`startDrag` (which rejects locked pieces) and is preserved by every
event. -/
def DragInv (s : AppState) : Prop :=
  ∀ p ∈ s.pieces, p.isLocked = true → s.draggingId ≠ some p.id

/-- Piece identifiers are pairwise distinct (spec §3: identity is a
unique, stable identifier assigned at generation time). -/
def UniqueIds (s : AppState) : Prop :=
  (s.pieces.map Piece.id).Nodup

/-- The solved flag agrees with the pieces: set exactly when every
piece is locked. -/
def SolvedIff (s : AppState) : Prop :=
  s.isSolved = true ↔ ∀ p ∈ s.pieces, p.isLocked = true

/-- Modelled from the spec: the output contract of `generateRods`
followed by `shufflePieces` (file `utils/puzzleEngine`, which is not
part of the provided sources).  Per spec §4.1–§4.2 the generated
layout has every piece unlocked, every footprint inside the grid,
and extents of at least one cell. -/
def GeneratedLayout (gridSize : Int) (ps : List Piece) : Prop :=
  ∀ p ∈ ps, p.isLocked = false ∧
    1 ≤ p.width ∧ 1 ≤ p.height ∧
    0 ≤ p.currentX ∧ p.currentX + p.width ≤ gridSize ∧
    0 ≤ p.currentY ∧ p.currentY + p.height ≤ gridSize

/-! ### Helper lemmas -/

/-- The creation-time skeleton of a piece: identity, home cell and
extent — the fields no operation may change. -/
def skel (p : Piece) : String × Int × Int × Int × Int :=
  (p.id, p.originalX, p.originalY, p.width, p.height)

@[simp] lemma skel_scatterOne (gs : Int) (rx ry : ℚ) (p : Piece) :
    skel (scatterOne gs rx ry p) = skel p := rfl

@[simp] lemma isLocked_scatterOne (gs : Int) (rx ry : ℚ) (p : Piece) :
    (scatterOne gs rx ry p).isLocked = p.isLocked := rfl

@[simp] lemma skel_lockIf (did : String) (p : Piece) :
    skel (lockIf did p) = skel p := by
  unfold lockIf; split <;> rfl

lemma scatterList_map_eq {α : Type} (gs : Int) (rand : Nat → ℚ × ℚ) (f : Piece → α)
    (hf : ∀ rx ry p, f (scatterOne gs rx ry p) = f p) :
    ∀ (i : Nat) (ps : List Piece), (scatterList gs rand i ps).map f = ps.map f := by
  intro i ps
  induction ps generalizing i with
  | nil => rfl
  | cons p ps ih => simp [scatterList, hf, ih]

lemma mem_scatterList (gs : Int) (rand : Nat → ℚ × ℚ)
    (hrand : ∀ i, 0 ≤ (rand i).1 ∧ (rand i).1 < 1 ∧ 0 ≤ (rand i).2 ∧ (rand i).2 < 1) :
    ∀ (i : Nat) (ps : List Piece) (q : Piece), q ∈ scatterList gs rand i ps →
      ∃ p ∈ ps, ∃ rx ry : ℚ, 0 ≤ rx ∧ rx < 1 ∧ 0 ≤ ry ∧ ry < 1 ∧
        q = scatterOne gs rx ry p := by
  intro i ps
  induction ps generalizing i with
  | nil => intro q hq; simp [scatterList] at hq
  | cons p ps ih =>
      intro q hq
      rcases List.mem_cons.mp hq with h | h
      · exact ⟨p, List.mem_cons_self p ps,
          (rand i).1, (rand i).2,
          (hrand i).1, (hrand i).2.1, (hrand i).2.2.1, (hrand i).2.2.2, h⟩
      · rcases ih (i + 1) q h with ⟨p', hp', rx, ry, h0, h1, h2, h3, heq⟩
        exact ⟨p', List.mem_cons_of_mem p hp', rx, ry, h0, h1, h2, h3, heq⟩

lemma jsFloor_sample_bounds (gs w : Int) (r : ℚ) (h0 : 0 ≤ r) (h1 : r < 1)
    (hw : w ≤ gs) :
    0 ≤ jsFloor (r * ((gs : ℚ) - (w : ℚ) + 1)) ∧
      jsFloor (r * ((gs : ℚ) - (w : ℚ) + 1)) + w ≤ gs := by
  have hm : (0 : ℚ) < (gs : ℚ) - (w : ℚ) + 1 := by
    have : (w : ℚ) ≤ (gs : ℚ) := by exact_mod_cast hw
    linarith
  constructor
  · exact Int.floor_nonneg.mpr (mul_nonneg h0 (le_of_lt hm))
  · have hlt : r * ((gs : ℚ) - (w : ℚ) + 1) < (gs : ℚ) - (w : ℚ) + 1 := by
      calc r * ((gs : ℚ) - (w : ℚ) + 1) < 1 * ((gs : ℚ) - (w : ℚ) + 1) := by
            exact mul_lt_mul_of_pos_right h1 hm
        _ = (gs : ℚ) - (w : ℚ) + 1 := one_mul _
    have hcast : ((gs - w + 1 : Int) : ℚ) = (gs : ℚ) - (w : ℚ) + 1 := by push_cast; ring
    have : jsFloor (r * ((gs : ℚ) - (w : ℚ) + 1)) < gs - w + 1 := by
      unfold jsFloor
      exact Int.floor_lt.mpr (by rw [hcast]; exact hlt)
    omega

lemma scatterOne_bounds (gs : Int) (rx ry : ℚ) (p : Piece)
    (h0 : 0 ≤ rx) (h1 : rx < 1) (h2 : 0 ≤ ry) (h3 : ry < 1)
    (hw : p.width ≤ gs) (hh : p.height ≤ gs) :
    0 ≤ (scatterOne gs rx ry p).currentX ∧
      (scatterOne gs rx ry p).currentX + (scatterOne gs rx ry p).width ≤ gs ∧
      0 ≤ (scatterOne gs rx ry p).currentY ∧
      (scatterOne gs rx ry p).currentY + (scatterOne gs rx ry p).height ≤ gs := by
  have hx := jsFloor_sample_bounds gs p.width rx h0 h1 hw
  have hy := jsFloor_sample_bounds gs p.height ry h2 h3 hh
  exact ⟨hx.1, hx.2, hy.1, hy.2⟩

@[simp] lemma skel_movePiece (gs : Int) (cell : ℚ) (off : Offset) (rx ry : ℚ)
    (did : String) (p : Piece) :
    skel (movePiece gs cell off rx ry did p) = skel p := by
  unfold movePiece; split <;> rfl

@[simp] lemma isLocked_movePiece (gs : Int) (cell : ℚ) (off : Offset) (rx ry : ℚ)
    (did : String) (p : Piece) :
    (movePiece gs cell off rx ry did p).isLocked = p.isLocked := by
  unfold movePiece; split <;> rfl

lemma movePiece_of_ne (gs : Int) (cell : ℚ) (off : Offset) (rx ry : ℚ)
    (did : String) (p : Piece) (h : ¬ p.id = did) :
    movePiece gs cell off rx ry did p = p := by
  unfold movePiece; simp [h]

@[simp] lemma isLocked_lockIf_true (did : String) (p : Piece) (h : p.isLocked = true) :
    (lockIf did p).isLocked = true := by
  unfold lockIf; split <;> simp [h]

@[simp] lemma currentX_lockIf (did : String) (p : Piece) :
    (lockIf did p).currentX = p.currentX := by
  unfold lockIf; split <;> rfl

@[simp] lemma currentY_lockIf (did : String) (p : Piece) :
    (lockIf did p).currentY = p.currentY := by
  unfold lockIf; split <;> rfl

lemma lockIf_of_ne (did : String) (p : Piece) (h : ¬ p.id = did) :
    lockIf did p = p := by
  unfold lockIf; simp [h]

lemma clamp_bounds (lo hi n : Int) (h : lo ≤ hi) :
    lo ≤ max lo (min hi n) ∧ max lo (min hi n) ≤ hi :=
  ⟨le_max_left _ _, max_le h (min_le_left _ _)⟩

lemma movePiece_bounds (gs : Int) (cell : ℚ) (off : Offset) (rx ry : ℚ)
    (did : String) (p : Piece)
    (hpb : 0 ≤ p.currentX ∧ p.currentX + p.width ≤ gs ∧
           0 ≤ p.currentY ∧ p.currentY + p.height ≤ gs) :
    0 ≤ (movePiece gs cell off rx ry did p).currentX ∧
      (movePiece gs cell off rx ry did p).currentX +
        (movePiece gs cell off rx ry did p).width ≤ gs ∧
      0 ≤ (movePiece gs cell off rx ry did p).currentY ∧
      (movePiece gs cell off rx ry did p).currentY +
        (movePiece gs cell off rx ry did p).height ≤ gs := by
  obtain ⟨h1, h2, h3, h4⟩ := hpb
  unfold movePiece
  split
  · have hx := clamp_bounds 0 (gs - p.width) (jsRound ((rx - off.x) / cell)) (by omega)
    have hy := clamp_bounds 0 (gs - p.height) (jsRound ((ry - off.y) / cell)) (by omega)
    simp only
    refine ⟨hx.1, by omega, hy.1, by omega⟩
  · exact ⟨h1, h2, h3, h4⟩

lemma handleMove_pieces (gs : Int) (cs rl rt cx cy : ℚ) (s : AppState) (did : String)
    (hdid : s.draggingId = some did) :
    (handleMove gs cs rl rt cx cy s).pieces =
      s.pieces.map (movePiece gs (cs / (gs : ℚ)) s.offset (cx - rl) (cy - rt) did) := by
  unfold handleMove
  rw [hdid]

lemma mem_handleEnd_pieces (s : AppState) (q : Piece) (hq : q ∈ (handleEnd s).pieces) :
    ∃ p ∈ s.pieces, skel q = skel p ∧ q.currentX = p.currentX ∧ q.currentY = p.currentY := by
  unfold handleEnd at hq
  rcases hdid : s.draggingId with _ | did <;> rw [hdid] at hq <;> dsimp only at hq
  · exact ⟨q, hq, rfl, rfl, rfl⟩
  · rcases hfind : s.pieces.find? (fun p => p.id = did) with _ | dp <;>
      rw [hfind] at hq <;> dsimp only at hq
    · exact ⟨q, hq, rfl, rfl, rfl⟩
    · split at hq
      · simp only [List.mem_append, List.mem_filter] at hq
        have hq' : q ∈ s.pieces.map (lockIf did) := by
          rcases hq with h | h
          · exact h.1
          · exact h.1
        rcases List.mem_map.mp hq' with ⟨p, hp, rfl⟩
        exact ⟨p, hp, skel_lockIf did p, currentX_lockIf did p, currentY_lockIf did p⟩
      · exact ⟨q, hq, rfl, rfl, rfl⟩

lemma mem_startDrag_pieces (gs : Int) (cs rl rt cx cy : ℚ) (clickedPiece : Piece)
    (s : AppState) (hclick : clickedPiece ∈ s.pieces) (q : Piece)
    (hq : q ∈ (startDrag gs cs rl rt cx cy clickedPiece s).pieces) :
    q ∈ s.pieces := by
  unfold startDrag at hq
  split at hq
  · exact hq
  · simp only [List.mem_append, List.mem_filter, List.mem_singleton] at hq
    rcases hq with h | h
    · exact h.1
    · exact h ▸ hclick

lemma mem_scatterPieces_pieces (gs : Int) (rand : Nat → ℚ × ℚ)
    (shuffle : List Piece → List Piece) (s : AppState)
    (hrand : ∀ i, 0 ≤ (rand i).1 ∧ (rand i).1 < 1 ∧ 0 ≤ (rand i).2 ∧ (rand i).2 < 1)
    (hshuffle : ∀ l, List.Perm (shuffle l) l) (q : Piece)
    (hq : q ∈ (scatterPieces gs rand shuffle s).pieces) :
    q ∈ s.pieces ∨
      ∃ p ∈ s.pieces, p.isLocked = false ∧ ∃ rx ry : ℚ,
        0 ≤ rx ∧ rx < 1 ∧ 0 ≤ ry ∧ ry < 1 ∧ q = scatterOne gs rx ry p := by
  unfold scatterPieces at hq
  simp only [List.mem_append] at hq
  rcases hq with h | h
  · exact Or.inl (List.mem_filter.mp h).1
  · have h' := (hshuffle _).mem_iff.mp h
    rcases mem_scatterList gs rand hrand 0 _ q h' with ⟨p, hp, rx, ry, h0, h1, h2, h3, heq⟩
    have hp' := List.mem_filter.mp hp
    exact Or.inr ⟨p, hp'.1, by simpa using hp'.2, rx, ry, h0, h1, h2, h3, heq⟩

lemma inBounds_step (gs : Int) (cs : ℚ) (s : AppState) (e : Event)
    (hok : EventOK s e) (hib : InBounds gs s) : InBounds gs (step gs cs s e) := by
  cases e with
  | move rl rt cx cy =>
      intro q hq
      rcases hdid : s.draggingId with _ | did
      · have : step gs cs s (Event.move rl rt cx cy) = s := by
          simp [step, handleMove, hdid]
        rw [this] at hq
        exact hib q hq
      · simp only [step] at hq
        rw [handleMove_pieces gs cs rl rt cx cy s did hdid] at hq
        rcases List.mem_map.mp hq with ⟨p, hp, rfl⟩
        exact movePiece_bounds gs _ s.offset _ _ did p (hib p hp)
  | release =>
      intro q hq
      simp only [step] at hq
      rcases mem_handleEnd_pieces s q hq with ⟨p, hp, hskel, hx, hy⟩
      have hw : q.width = p.width := congrArg (fun t => t.2.2.2.1) hskel
      have hh : q.height = p.height := congrArg (fun t => t.2.2.2.2) hskel
      have := hib p hp
      rw [hx, hy, hw, hh]
      exact this
  | start rl rt cx cy clickedPiece =>
      intro q hq
      simp only [step] at hq
      exact hib q (mem_startDrag_pieces gs cs rl rt cx cy clickedPiece s hok q hq)
  | scatter rand shuffle =>
      intro q hq
      simp only [step] at hq
      rcases mem_scatterPieces_pieces gs rand shuffle s hok.1 hok.2 q hq with
        h | ⟨p, hp, _, rx, ry, h0, h1, h2, h3, rfl⟩
      · exact hib q h
      · have hpb := hib p hp
        have hw : p.width ≤ gs := by omega
        have hh : p.height ≤ gs := by omega
        exact scatterOne_bounds gs rx ry p h0 h1 h2 h3 hw hh

lemma inBounds_run (gs : Int) (cs : ℚ) (s : AppState) (evs : List Event)
    (htr : TraceOK gs cs s evs) (hib : InBounds gs s) :
    InBounds gs (run gs cs s evs) := by
  induction evs generalizing s with
  | nil => exact hib
  | cons e es ih =>
      exact ih (step gs cs s e) htr.2 (inBounds_step gs cs s e htr.1 hib)

@[simp] lemma id_movePiece (gs : Int) (cell : ℚ) (off : Offset) (rx ry : ℚ)
    (did : String) (p : Piece) :
    (movePiece gs cell off rx ry did p).id = p.id := by
  unfold movePiece; split <;> rfl

@[simp] lemma id_lockIf (did : String) (p : Piece) :
    (lockIf did p).id = p.id := by
  unfold lockIf; split <;> rfl

@[simp] lemma id_scatterOne (gs : Int) (rx ry : ℚ) (p : Piece) :
    (scatterOne gs rx ry p).id = p.id := rfl

@[simp] lemma handleMove_draggingId (gs : Int) (cs rl rt cx cy : ℚ) (s : AppState) :
    (handleMove gs cs rl rt cx cy s).draggingId = s.draggingId := by
  unfold handleMove; rcases h : s.draggingId <;> dsimp only
  all_goals exact h

@[simp] lemma handleMove_isSolved (gs : Int) (cs rl rt cx cy : ℚ) (s : AppState) :
    (handleMove gs cs rl rt cx cy s).isSolved = s.isSolved := by
  unfold handleMove; rcases h : s.draggingId <;> rfl

@[simp] lemma handleEnd_draggingId (s : AppState) : (handleEnd s).draggingId = none := by
  unfold handleEnd
  rcases h : s.draggingId with _ | did
  · exact h
  · dsimp only
    rcases hf : s.pieces.find? (fun p => p.id = did) with _ | dp <;> rw [hf] <;> dsimp only
    all_goals first
    | rfl
    | (split <;> rfl)

@[simp] lemma scatterPieces_draggingId (gs : Int) (rand : Nat → ℚ × ℚ)
    (shuffle : List Piece → List Piece) (s : AppState) :
    (scatterPieces gs rand shuffle s).draggingId = s.draggingId := rfl

@[simp] lemma scatterPieces_isSolved (gs : Int) (rand : Nat → ℚ × ℚ)
    (shuffle : List Piece → List Piece) (s : AppState) :
    (scatterPieces gs rand shuffle s).isSolved = s.isSolved := rfl

@[simp] lemma scatterPieces_offset (gs : Int) (rand : Nat → ℚ × ℚ)
    (shuffle : List Piece → List Piece) (s : AppState) :
    (scatterPieces gs rand shuffle s).offset = s.offset := rfl

lemma startDrag_of_locked (gs : Int) (cs rl rt cx cy : ℚ) (clickedPiece : Piece)
    (s : AppState) (h : clickedPiece.isLocked = true) :
    startDrag gs cs rl rt cx cy clickedPiece s = s := by
  unfold startDrag; simp [h]

lemma startDrag_of_unlocked (gs : Int) (cs rl rt cx cy : ℚ) (clickedPiece : Piece)
    (s : AppState) (h : clickedPiece.isLocked = false) :
    startDrag gs cs rl rt cx cy clickedPiece s =
      { pieces := (s.pieces.filter (fun p => ¬ p.id = clickedPiece.id)) ++ [clickedPiece]
        draggingId := some clickedPiece.id
        offset := { x := (cx - rl) - (clickedPiece.currentX : ℚ) * (cs / (gs : ℚ))
                    y := (cy - rt) - (clickedPiece.currentY : ℚ) * (cs / (gs : ℚ)) }
        isSolved := s.isSolved } := by
  unfold startDrag; simp [h]

/-- In the home branch of `handleEnd`, the reordered list is a
permutation of the lock-updated list. -/
lemma handleEnd_final_perm (updated : List Piece) :
    List.Perm (updated.filter (fun p => p.isLocked) ++ updated.filter (fun p => !p.isLocked))
      updated :=
  List.filter_append_perm _ updated

/-- The scatter operation preserves any projection of the pieces that
`scatterOne` preserves, up to permutation. -/
lemma scatterPieces_map_perm {α : Type} (gs : Int) (rand : Nat → ℚ × ℚ)
    (shuffle : List Piece → List Piece) (s : AppState) (f : Piece → α)
    (hf : ∀ rx ry p, f (scatterOne gs rx ry p) = f p)
    (hshuffle : ∀ l, List.Perm (shuffle l) l) :
    List.Perm ((scatterPieces gs rand shuffle s).pieces.map f) (s.pieces.map f) := by
  unfold scatterPieces
  simp only [List.map_append]
  have h1 : List.Perm ((shuffle (scatterList gs rand 0
      (s.pieces.filter (fun p => !p.isLocked)))).map f)
      ((s.pieces.filter (fun p => !p.isLocked)).map f) := by
    have := (hshuffle (scatterList gs rand 0 (s.pieces.filter (fun p => !p.isLocked)))).map f
    rwa [scatterList_map_eq gs rand f hf] at this
  have h2 : List.Perm ((s.pieces.filter (fun p => p.isLocked)).map f ++
      (s.pieces.filter (fun p => !p.isLocked)).map f) (s.pieces.map f) := by
    rw [← List.map_append]
    exact (List.filter_append_perm _ s.pieces).map f
  exact (List.Perm.append_left _ h1).trans h2

/-- The lock status of every piece, keyed by whether it is ever read:
two piece lists agree on "all locked" when their lock projections are
permutations of each other. -/
lemma allLocked_iff_of_perm {l₁ l₂ : List Piece}
    (h : List.Perm (l₁.map Piece.isLocked) (l₂.map Piece.isLocked)) :
    (∀ p ∈ l₁, p.isLocked = true) ↔ (∀ p ∈ l₂, p.isLocked = true) := by
  constructor <;> intro hall p hp
  · have hmem : p.isLocked ∈ l₂.map Piece.isLocked := List.mem_map_of_mem _ hp
    rcases List.mem_map.mp (h.mem_iff.mpr hmem) with ⟨q, hq, hEq⟩
    rw [← hEq]; exact hall q hq
  · have hmem : p.isLocked ∈ l₁.map Piece.isLocked := List.mem_map_of_mem _ hp
    rcases List.mem_map.mp (h.mem_iff.mp hmem) with ⟨q, hq, hEq⟩
    rw [← hEq]; exact hall q hq

/-- Exhaustive description of `handleEnd`: no active drag leaves the
state unchanged; with an active drag the dragging id is cleared, and
the pieces are re-ordered with the dragged piece locked exactly when
it was found sitting on its home cell. -/
lemma handleEnd_cases (s : AppState) :
    (s.draggingId = none ∧ handleEnd s = s) ∨
    (∃ did, s.draggingId = some did ∧
      ((s.pieces.find? (fun p => p.id = did) = none ∧
          handleEnd s = { s with draggingId := none }) ∨
       (∃ dp, s.pieces.find? (fun p => p.id = did) = some dp ∧
         ((¬ (dp.currentX = dp.originalX ∧ dp.currentY = dp.originalY) ∧
             handleEnd s = { s with draggingId := none }) ∨
          ((dp.currentX = dp.originalX ∧ dp.currentY = dp.originalY) ∧
             handleEnd s =
               { pieces := (s.pieces.map (lockIf did)).filter (fun p => p.isLocked) ++
                   (s.pieces.map (lockIf did)).filter (fun p => !p.isLocked)
                 draggingId := none
                 offset := s.offset
                 isSolved :=
                   if ((s.pieces.map (lockIf did)).filter (fun p => p.isLocked) ++
                       (s.pieces.map (lockIf did)).filter (fun p => !p.isLocked)).all
                         (fun p => p.isLocked) = true then true
                   else s.isSolved }))))) := by
  rcases hdid : s.draggingId with _ | did
  · refine Or.inl ⟨rfl, ?_⟩
    unfold handleEnd; rw [hdid]
  · refine Or.inr ⟨did, rfl, ?_⟩
    rcases hf : s.pieces.find? (fun p => p.id = did) with _ | dp
    · refine Or.inl ⟨hf, ?_⟩
      unfold handleEnd; rw [hdid]; dsimp only; rw [hf]
    · refine Or.inr ⟨dp, hf, ?_⟩
      by_cases hhome : dp.currentX = dp.originalX ∧ dp.currentY = dp.originalY
      · refine Or.inr ⟨hhome, ?_⟩
        unfold handleEnd; rw [hdid]; dsimp only; rw [hf]; dsimp only
        rw [if_pos hhome]
      · refine Or.inl ⟨hhome, ?_⟩
        unfold handleEnd; rw [hdid]; dsimp only; rw [hf]; dsimp only
        rw [if_neg hhome]

lemma dragInv_step (gs : Int) (cs : ℚ) (s : AppState) (e : Event)
    (hok : EventOK s e) (hinv : DragInv s) : DragInv (step gs cs s e) := by
  cases e with
  | move rl rt cx cy =>
      intro q hq hlk
      simp only [step] at hq ⊢
      rw [handleMove_draggingId]
      rcases hdid : s.draggingId with _ | did
      · simp
      · rw [handleMove_pieces gs cs rl rt cx cy s did hdid] at hq
        rcases List.mem_map.mp hq with ⟨p, hp, rfl⟩
        have hpl : p.isLocked = true := by rwa [isLocked_movePiece] at hlk
        have hne := hinv p hp hpl
        rw [hdid] at hne
        rw [id_movePiece]
        exact hne
  | release =>
      intro q hq hlk
      simp only [step, handleEnd_draggingId]
      simp
  | start rl rt cx cy clickedPiece =>
      by_cases hlkd : clickedPiece.isLocked = true
      · intro q hq hlk
        simp only [step, startDrag_of_locked gs cs rl rt cx cy clickedPiece s hlkd] at hq ⊢
        exact hinv q hq hlk
      · have h0 : clickedPiece.isLocked = false := by
          cases h : clickedPiece.isLocked
          · rfl
          · exact absurd h hlkd
        intro q hq hlk
        simp only [step, startDrag_of_unlocked gs cs rl rt cx cy clickedPiece s h0] at hq ⊢
        rcases List.mem_append.mp hq with h | h
        · have := (List.mem_filter.mp h).2
          simp only [decide_eq_true_eq] at this
          intro hcon
          exact this (Option.some.inj hcon).symm
        · rw [List.mem_singleton.mp h] at hlk
          exact absurd hlk hlkd
  | scatter rand shuffle =>
      intro q hq hlk
      simp only [step, scatterPieces_draggingId] at hq ⊢
      rcases mem_scatterPieces_pieces gs rand shuffle s hok.1 hok.2 q hq with
        h | ⟨p, hp, hpf, rx, ry, _, _, _, _, rfl⟩
      · exact hinv q h hlk
      · rw [isLocked_scatterOne, hpf] at hlk
        cases hlk

lemma uniqueIds_step (gs : Int) (cs : ℚ) (s : AppState) (e : Event)
    (hok : EventOK s e) (huniq : UniqueIds s) : UniqueIds (step gs cs s e) := by
  cases e with
  | move rl rt cx cy =>
      unfold UniqueIds
      simp only [step]
      rcases hdid : s.draggingId with _ | did
      · have : handleMove gs cs rl rt cx cy s = s := by
          unfold handleMove; rw [hdid]
        rw [this]; exact huniq
      · rw [handleMove_pieces gs cs rl rt cx cy s did hdid, List.map_map]
        have : Piece.id ∘ movePiece gs (cs / (gs : ℚ)) s.offset (cx - rl) (cy - rt) did =
            Piece.id := funext (fun p => id_movePiece gs _ s.offset _ _ did p)
        rw [this]; exact huniq
  | release =>
      unfold UniqueIds
      simp only [step]
      rcases handleEnd_cases s with ⟨_, heq⟩ | ⟨did, _, h⟩
      · rw [heq]; exact huniq
      · rcases h with ⟨_, heq⟩ | ⟨dp, _, h⟩
        · rw [heq]; exact huniq
        · rcases h with ⟨_, heq⟩ | ⟨_, heq⟩
          · rw [heq]; exact huniq
          · rw [heq]
            have hperm := (handleEnd_final_perm (s.pieces.map (lockIf did))).map Piece.id
            rw [(hperm.nodup_iff :)]
            rw [List.map_map]
            have : Piece.id ∘ lockIf did = Piece.id := funext (fun p => id_lockIf did p)
            rw [this]; exact huniq
  | start rl rt cx cy clickedPiece =>
      by_cases hlkd : clickedPiece.isLocked = true
      · unfold UniqueIds
        simp only [step, startDrag_of_locked gs cs rl rt cx cy clickedPiece s hlkd]
        exact huniq
      · have h0 : clickedPiece.isLocked = false := by
          cases h : clickedPiece.isLocked
          · rfl
          · exact absurd h hlkd
        unfold UniqueIds
        simp only [step, startDrag_of_unlocked gs cs rl rt cx cy clickedPiece s h0]
        rw [List.map_append, List.nodup_append]
        refine ⟨?_, List.nodup_singleton _, ?_⟩
        · exact ((List.filter_sublist s.pieces).map Piece.id).nodup huniq
        · intro x hx hx'
          rw [List.mem_singleton.mp hx'] at hx
          rcases List.mem_map.mp hx with ⟨q, hq, hqid⟩
          have := (List.mem_filter.mp hq).2
          simp only [decide_eq_true_eq] at this
          exact this hqid
  | scatter rand shuffle =>
      unfold UniqueIds
      simp only [step]
      have hperm := scatterPieces_map_perm gs rand shuffle s Piece.id
        (fun rx ry p => id_scatterOne gs rx ry p) hok.2
      rw [(hperm.nodup_iff :)]
      exact huniq

lemma bool_eq_false_of_ne_true {b : Bool} (h : b ≠ true) : b = false := by
  cases b
  · rfl
  · exact absurd rfl h

lemma solvedIff_step (gs : Int) (cs : ℚ) (s : AppState) (e : Event)
    (hok : EventOK s e) (hsi : SolvedIff s) : SolvedIff (step gs cs s e) := by
  cases e with
  | move rl rt cx cy =>
      unfold SolvedIff
      simp only [step, handleMove_isSolved]
      rcases hdid : s.draggingId with _ | did
      · have : handleMove gs cs rl rt cx cy s = s := by
          unfold handleMove; rw [hdid]
        rw [this]; exact hsi
      · rw [handleMove_pieces gs cs rl rt cx cy s did hdid]
        rw [List.forall_mem_map]
        simpa only [isLocked_movePiece] using hsi
  | release =>
      unfold SolvedIff
      simp only [step]
      rcases handleEnd_cases s with ⟨_, heq⟩ | ⟨did, _, h⟩
      · rw [heq]; exact hsi
      · rcases h with ⟨_, heq⟩ | ⟨dp, _, h⟩
        · rw [heq]; exact hsi
        · rcases h with ⟨_, heq⟩ | ⟨_, heq⟩
          · rw [heq]; exact hsi
          · rw [heq]
            dsimp only
            by_cases hall : ((s.pieces.map (lockIf did)).filter (fun p => p.isLocked) ++
                (s.pieces.map (lockIf did)).filter (fun p => !p.isLocked)).all
                  (fun p => p.isLocked) = true
            · rw [if_pos hall]
              exact iff_of_true rfl (List.all_eq_true.mp hall)
            · rw [if_neg hall]
              have hnot : ¬ ∀ q ∈ (s.pieces.map (lockIf did)).filter (fun p => p.isLocked) ++
                  (s.pieces.map (lockIf did)).filter (fun p => !p.isLocked),
                    q.isLocked = true :=
                fun h => hall (List.all_eq_true.mpr h)
              have hfalse : s.isSolved = false := by
                refine bool_eq_false_of_ne_true (fun htrue => hnot ?_)
                have hallpieces := hsi.mp htrue
                have hupdated : ∀ q ∈ s.pieces.map (lockIf did), q.isLocked = true := by
                  rw [List.forall_mem_map]
                  intro p hp
                  exact isLocked_lockIf_true did p (hallpieces p hp)
                exact fun q hq =>
                  hupdated q ((handleEnd_final_perm (s.pieces.map (lockIf did))).subset hq)
              rw [hfalse]
              exact iff_of_false (by simp) hnot
  | start rl rt cx cy clickedPiece =>
      by_cases hlkd : clickedPiece.isLocked = true
      · unfold SolvedIff
        simp only [step, startDrag_of_locked gs cs rl rt cx cy clickedPiece s hlkd]
        exact hsi
      · have h0 : clickedPiece.isLocked = false := bool_eq_false_of_ne_true hlkd
        unfold SolvedIff
        simp only [step, startDrag_of_unlocked gs cs rl rt cx cy clickedPiece s h0]
        have hrhs : ¬ ∀ p ∈ s.pieces, p.isLocked = true :=
          fun h => hlkd (h clickedPiece hok)
        have hfalse : s.isSolved = false :=
          bool_eq_false_of_ne_true (fun htrue => hrhs (hsi.mp htrue))
        rw [hfalse]
        refine iff_of_false (by simp) (fun h => ?_)
        exact hlkd (h clickedPiece (List.mem_append.mpr (Or.inr (List.mem_singleton_self _))))
  | scatter rand shuffle =>
      unfold SolvedIff
      simp only [step, scatterPieces_isSolved]
      have hperm := scatterPieces_map_perm gs rand shuffle s Piece.isLocked
        (fun rx ry p => isLocked_scatterOne gs rx ry p) hok.2
      rw [(allLocked_iff_of_perm hperm :)]
      exact hsi

lemma locked_mem_step (gs : Int) (cs : ℚ) (s : AppState) (e : Event)
    (hok : EventOK s e) (hinv : DragInv s) (huniq : UniqueIds s)
    (p : Piece) (hp : p ∈ s.pieces) (hlk : p.isLocked = true) :
    p ∈ (step gs cs s e).pieces := by
  cases e with
  | move rl rt cx cy =>
      simp only [step]
      rcases hdid : s.draggingId with _ | did
      · have : handleMove gs cs rl rt cx cy s = s := by
          unfold handleMove; rw [hdid]
        rw [this]; exact hp
      · rw [handleMove_pieces gs cs rl rt cx cy s did hdid]
        have hne : ¬ p.id = did := by
          have := hinv p hp hlk
          rw [hdid] at this
          exact fun h => this (by rw [h])
        exact List.mem_map.mpr ⟨p, hp, movePiece_of_ne gs _ s.offset _ _ did p hne⟩
  | release =>
      simp only [step]
      rcases handleEnd_cases s with ⟨_, heq⟩ | ⟨did, hdid, h⟩
      · rw [heq]; exact hp
      · rcases h with ⟨_, heq⟩ | ⟨dp, _, h⟩
        · rw [heq]; exact hp
        · rcases h with ⟨_, heq⟩ | ⟨_, heq⟩
          · rw [heq]; exact hp
          · rw [heq]
            dsimp only
            have hne : ¬ p.id = did := by
              have := hinv p hp hlk
              rw [hdid] at this
              exact fun h => this (by rw [h])
            have hmem : p ∈ s.pieces.map (lockIf did) :=
              List.mem_map.mpr ⟨p, hp, lockIf_of_ne did p hne⟩
            exact (handleEnd_final_perm (s.pieces.map (lockIf did))).mem_iff.mpr hmem
  | start rl rt cx cy clickedPiece =>
      by_cases hlkd : clickedPiece.isLocked = true
      · simp only [step, startDrag_of_locked gs cs rl rt cx cy clickedPiece s hlkd]
        exact hp
      · have h0 : clickedPiece.isLocked = false := bool_eq_false_of_ne_true hlkd
        simp only [step, startDrag_of_unlocked gs cs rl rt cx cy clickedPiece s h0]
        refine List.mem_append.mpr (Or.inl ?_)
        refine List.mem_filter.mpr ⟨hp, ?_⟩
        simp only [decide_eq_true_eq]
        intro hid
        have : p = clickedPiece := List.inj_on_of_nodup_map huniq hp hok hid
        rw [this] at hlk
        exact hlkd hlk
  | scatter rand shuffle =>
      simp only [step]
      unfold scatterPieces
      exact List.mem_append.mpr (Or.inl (List.mem_filter.mpr ⟨hp, by rw [hlk]⟩))

/-- `startDrag`'s re-ordering is a permutation: removing every piece
sharing the clicked id and appending the clicked piece permutes the
original list, given unique ids and a clicked piece from the list. -/
lemma filter_ne_append_perm (l : List Piece) (c : Piece) (hc : c ∈ l)
    (hnd : (l.map Piece.id).Nodup) :
    List.Perm (l.filter (fun p => ¬ p.id = c.id) ++ [c]) l := by
  induction l with
  | nil => cases hc
  | cons a l ih =>
      rw [List.map_cons, List.nodup_cons] at hnd
      rcases List.mem_cons.mp hc with rfl | hc'
      · have h1 : List.filter (fun p => decide (¬ p.id = c.id)) (c :: l) =
            List.filter (fun p => decide (¬ p.id = c.id)) l :=
          List.filter_cons_of_neg (by simp)
        have h2 : List.filter (fun p => decide (¬ p.id = c.id)) l = l := by
          refine List.filter_eq_self.mpr (fun q hq => ?_)
          simp only [decide_eq_true_eq]
          intro hqid
          exact hnd.1 (hqid ▸ List.mem_map_of_mem Piece.id hq)
        rw [h1, h2]
        exact List.perm_append_singleton c l
      · have hne : ¬ a.id = c.id := by
          intro h
          exact hnd.1 (h ▸ List.mem_map_of_mem Piece.id hc')
        have h1 : List.filter (fun p => decide (¬ p.id = c.id)) (a :: l) =
            a :: List.filter (fun p => decide (¬ p.id = c.id)) l :=
          List.filter_cons_of_pos (by simpa)
        rw [h1, List.cons_append]
        exact (ih hc' hnd.2).cons a

lemma skel_perm_step (gs : Int) (cs : ℚ) (s : AppState) (e : Event)
    (hok : EventOK s e) (huniq : UniqueIds s) :
    List.Perm ((step gs cs s e).pieces.map skel) (s.pieces.map skel) := by
  cases e with
  | move rl rt cx cy =>
      simp only [step]
      rcases hdid : s.draggingId with _ | did
      · have : handleMove gs cs rl rt cx cy s = s := by
          unfold handleMove; rw [hdid]
        rw [this]
      · rw [handleMove_pieces gs cs rl rt cx cy s did hdid, List.map_map]
        have : skel ∘ movePiece gs (cs / (gs : ℚ)) s.offset (cx - rl) (cy - rt) did =
            skel := funext (fun p => skel_movePiece gs _ s.offset _ _ did p)
        rw [this]
  | release =>
      simp only [step]
      rcases handleEnd_cases s with ⟨_, heq⟩ | ⟨did, _, h⟩
      · rw [heq]
      · rcases h with ⟨_, heq⟩ | ⟨dp, _, h⟩
        · rw [heq]
        · rcases h with ⟨_, heq⟩ | ⟨_, heq⟩
          · rw [heq]
          · rw [heq]
            have hperm := (handleEnd_final_perm (s.pieces.map (lockIf did))).map skel
            have : (s.pieces.map (lockIf did)).map skel = s.pieces.map skel := by
              rw [List.map_map]
              exact congrArg (fun f => List.map f s.pieces)
                (funext (fun p => skel_lockIf did p))
            rw [this] at hperm
            exact hperm
  | start rl rt cx cy clickedPiece =>
      by_cases hlkd : clickedPiece.isLocked = true
      · simp only [step, startDrag_of_locked gs cs rl rt cx cy clickedPiece s hlkd]
        exact List.Perm.refl _
      · have h0 : clickedPiece.isLocked = false := bool_eq_false_of_ne_true hlkd
        simp only [step, startDrag_of_unlocked gs cs rl rt cx cy clickedPiece s h0]
        exact (filter_ne_append_perm s.pieces clickedPiece hok huniq).map skel
  | scatter rand shuffle =>
      simp only [step]
      exact scatterPieces_map_perm gs rand shuffle s skel
        (fun rx ry p => skel_scatterOne gs rx ry p) hok.2

/-! ### Trace-level preservation -/

lemma uniqueIds_dragInv_run (gs : Int) (cs : ℚ) (s : AppState) (evs : List Event)
    (htr : TraceOK gs cs s evs) (huniq : UniqueIds s) (hinv : DragInv s) :
    UniqueIds (run gs cs s evs) ∧ DragInv (run gs cs s evs) := by
  induction evs generalizing s with
  | nil => exact ⟨huniq, hinv⟩
  | cons e es ih =>
      exact ih (step gs cs s e) htr.2
        (uniqueIds_step gs cs s e htr.1 huniq) (dragInv_step gs cs s e htr.1 hinv)

lemma locked_mem_run (gs : Int) (cs : ℚ) (s : AppState) (evs : List Event)
    (htr : TraceOK gs cs s evs) (huniq : UniqueIds s) (hinv : DragInv s)
    (p : Piece) (hp : p ∈ s.pieces) (hlk : p.isLocked = true) :
    p ∈ (run gs cs s evs).pieces := by
  induction evs generalizing s with
  | nil => exact hp
  | cons e es ih =>
      exact ih (step gs cs s e) htr.2
        (uniqueIds_step gs cs s e htr.1 huniq) (dragInv_step gs cs s e htr.1 hinv)
        (locked_mem_step gs cs s e htr.1 hinv huniq p hp hlk)

lemma solvedIff_run (gs : Int) (cs : ℚ) (s : AppState) (evs : List Event)
    (htr : TraceOK gs cs s evs) (hsi : SolvedIff s) :
    SolvedIff (run gs cs s evs) := by
  induction evs generalizing s with
  | nil => exact hsi
  | cons e es ih =>
      exact ih (step gs cs s e) htr.2 (solvedIff_step gs cs s e htr.1 hsi)

lemma skel_perm_run (gs : Int) (cs : ℚ) (s : AppState) (evs : List Event)
    (htr : TraceOK gs cs s evs) (huniq : UniqueIds s) :
    List.Perm ((run gs cs s evs).pieces.map skel) (s.pieces.map skel) := by
  induction evs generalizing s with
  | nil => exact List.Perm.refl _
  | cons e es ih =>
      exact (ih (step gs cs s e) htr.2 (uniqueIds_step gs cs s e htr.1 huniq)).trans
        (skel_perm_step gs cs s e htr.1 huniq)

/-! ### Claim theorems -/

/-- C1: for every piece at every observable point after
initialization, `0 ≤ currentX ≤ gridSize - width` and
`0 ≤ currentY ≤ gridSize - height`; assuming the initial layout
satisfies this, every event (in particular every pointer-move update
and every scatter call) preserves it. -/
theorem c1_grid_bounds_invariant (gridSize : Int) (containerSize : ℚ) (s : AppState)
    (evs : List Event) (hinit : InBounds gridSize s)
    (htr : TraceOK gridSize containerSize s evs) :
    ∀ p ∈ (run gridSize containerSize s evs).pieces,
      0 ≤ p.currentX ∧ p.currentX ≤ gridSize - p.width ∧
      0 ≤ p.currentY ∧ p.currentY ≤ gridSize - p.height := by
  intro p hp
  have h := inBounds_run gridSize containerSize s evs htr hinit p hp
  omega

/-- C5: locking is monotonic.  From any state in which no locked piece
is the dragged one (`DragInv`) and ids are unique, a locked piece
survives — with the same coordinates and still locked, being the very
same `Piece` value — every sequence of drag and scatter events. -/
theorem c5_locking_monotonic (gridSize : Int) (containerSize : ℚ) (s : AppState)
    (evs : List Event) (huniq : UniqueIds s) (hinv : DragInv s)
    (htr : TraceOK gridSize containerSize s evs) :
    ∀ p ∈ s.pieces, p.isLocked = true →
      p ∈ (run gridSize containerSize s evs).pieces :=
  fun p hp hlk => locked_mem_run gridSize containerSize s evs htr huniq hinv p hp hlk

/-- C10: every operation preserves the collection of pieces: the
multiset of creation-time skeletons (id, home cell, extent) is
invariant under every sequence of events — no piece is created or
removed and re-orderings are permutations. -/
theorem c10_pieces_preserved (gridSize : Int) (containerSize : ℚ) (s : AppState)
    (evs : List Event) (huniq : UniqueIds s)
    (htr : TraceOK gridSize containerSize s evs) :
    List.Perm ((run gridSize containerSize s evs).pieces.map skel)
      (s.pieces.map skel) :=
  skel_perm_run gridSize containerSize s evs htr huniq

/-! ### Sample data for witnesses -/

/-- A 1×1 unlocked piece away from home, on a 6×6 grid. -/
def wPieceA : Piece :=
  { id := "a", originalX := 0, originalY := 0, currentX := 3, currentY := 2,
    width := 1, height := 1, isLocked := false }

/-- A 2×1 locked piece sitting on its home cell. -/
def wPieceL : Piece :=
  { id := "b", originalX := 2, originalY := 3, currentX := 2, currentY := 3,
    width := 2, height := 1, isLocked := true }

/-- A mid-drag state: piece `a` is being dragged, piece `b` is locked. -/
def wState : AppState :=
  { pieces := [wPieceL, wPieceA], draggingId := some "a",
    offset := { x := 0, y := 0 }, isSolved := false }

/-- A constant random stream with both samples `1/2 ∈ [0, 1)`. -/
def wRand : Nat → ℚ × ℚ := fun _ => (1/2, 1/2)

/-- A pointer-move, the drag release, and a scatter. -/
def wEvents : List Event :=
  [Event.move 0 0 350 250, Event.release, Event.scatter wRand (fun l => l)]

/-- Witness for C1 at the sample state and events. -/
theorem c1_witness :
    (InBounds 6 wState ∧ TraceOK 6 600 wState wEvents) ∧
    (∀ p ∈ (run 6 600 wState wEvents).pieces,
      0 ≤ p.currentX ∧ p.currentX ≤ 6 - p.width ∧
      0 ≤ p.currentY ∧ p.currentY ≤ 6 - p.height) := by
  have h1 : InBounds 6 wState := by unfold InBounds; decide
  have h2 : TraceOK 6 600 wState wEvents := by
    refine ⟨trivial, trivial, ⟨fun i => ?_, fun l => List.Perm.refl l⟩, trivial⟩
    norm_num [wRand]
  exact ⟨⟨h1, h2⟩, c1_grid_bounds_invariant 6 600 wState wEvents h1 h2⟩

/-- Witness for C5 at the sample state and events. -/
theorem c5_witness :
    (UniqueIds wState ∧ DragInv wState ∧ TraceOK 6 600 wState wEvents) ∧
    (∀ p ∈ wState.pieces, p.isLocked = true →
      p ∈ (run 6 600 wState wEvents).pieces) := by
  have h1 : UniqueIds wState := by unfold UniqueIds; decide
  have h2 : DragInv wState := by unfold DragInv; decide
  have h3 : TraceOK 6 600 wState wEvents := by
    refine ⟨trivial, trivial, ⟨fun i => ?_, fun l => List.Perm.refl l⟩, trivial⟩
    norm_num [wRand]
  exact ⟨⟨h1, h2, h3⟩, c5_locking_monotonic 6 600 wState wEvents h1 h2 h3⟩

/-- Witness for C10 at the sample state and events. -/
theorem c10_witness :
    (UniqueIds wState ∧ TraceOK 6 600 wState wEvents) ∧
    List.Perm ((run 6 600 wState wEvents).pieces.map skel) (wState.pieces.map skel) := by
  have h1 : UniqueIds wState := by unfold UniqueIds; decide
  have h2 : TraceOK 6 600 wState wEvents := by
    refine ⟨trivial, trivial, ⟨fun i => ?_, fun l => List.Perm.refl l⟩, trivial⟩
    norm_num [wRand]
  exact ⟨⟨h1, h2⟩, c10_pieces_preserved 6 600 wState wEvents h1 h2⟩

/-- C3: the solved flag is true exactly when every piece is locked
(`SolvedIff`) at every state reachable from a freshly generated
puzzle; it is false immediately after generation (more than one piece,
all unlocked per the generation contract), and no scatter call ever
changes it. -/
theorem c3_solved_iff_all_locked (gridSize : Int) (containerSize : ℚ) (s0 : AppState)
    (generated : List Piece) (hgen : GeneratedLayout gridSize generated)
    (hlen : 1 < generated.length) (evs : List Event)
    (htr : TraceOK gridSize containerSize (initPuzzle generated s0) evs) :
    (initPuzzle generated s0).isSolved = false ∧
    (¬ ∀ p ∈ (initPuzzle generated s0).pieces, p.isLocked = true) ∧
    SolvedIff (run gridSize containerSize (initPuzzle generated s0) evs) ∧
    (∀ (rand : Nat → ℚ × ℚ) (shuffle : List Piece → List Piece) (s : AppState),
      (scatterPieces gridSize rand shuffle s).isSolved = s.isSolved) := by
  have hne : ¬ ∀ p ∈ (initPuzzle generated s0).pieces, p.isLocked = true := by
    intro hall
    have hnil : generated ≠ [] := by
      intro h; rw [h] at hlen; simp at hlen
    rcases List.exists_mem_of_ne_nil generated hnil with ⟨p, hp⟩
    have hp' : p ∈ (initPuzzle generated s0).pieces := by exact hp
    have h1 := hall p hp'
    rw [(hgen p hp).1] at h1
    cases h1
  have hsi : SolvedIff (initPuzzle generated s0) := by
    unfold SolvedIff
    exact iff_of_false (by simp [initPuzzle]) hne
  exact ⟨rfl, hne, solvedIff_run gridSize containerSize (initPuzzle generated s0) evs htr hsi,
    fun _ _ _ => rfl⟩

/-- A freshly generated two-piece layout on a 6×6 grid. -/
def wGen : List Piece :=
  [{ id := "g1", originalX := 0, originalY := 0, currentX := 2, currentY := 2,
     width := 2, height := 1, isLocked := false },
   { id := "g2", originalX := 0, originalY := 1, currentX := 4, currentY := 4,
     width := 1, height := 2, isLocked := false }]

/-- Witness for C3 at the sample generated layout, start state and events. -/
theorem c3_witness :
    (GeneratedLayout 6 wGen ∧ 1 < wGen.length ∧
      TraceOK 6 600 (initPuzzle wGen wState) wEvents) ∧
    ((initPuzzle wGen wState).isSolved = false ∧
     (¬ ∀ p ∈ (initPuzzle wGen wState).pieces, p.isLocked = true) ∧
     SolvedIff (run 6 600 (initPuzzle wGen wState) wEvents) ∧
     (∀ (rand : Nat → ℚ × ℚ) (shuffle : List Piece → List Piece) (s : AppState),
       (scatterPieces 6 rand shuffle s).isSolved = s.isSolved)) := by
  have h1 : GeneratedLayout 6 wGen := by unfold GeneratedLayout; decide
  have h2 : (1 : Nat) < wGen.length := by decide
  have h3 : TraceOK 6 600 (initPuzzle wGen wState) wEvents := by
    refine ⟨trivial, trivial, ⟨fun i => ?_, fun l => List.Perm.refl l⟩, trivial⟩
    norm_num [wRand]
  exact ⟨⟨h1, h2, h3⟩, c3_solved_iff_all_locked 6 600 wState wGen h1 h2 wEvents h3⟩

/-- The cell position the spec prescribes for a pointer-move: pointer
translated to container-relative coordinates, minus the grab offset,
divided by the per-cell pixel size, rounded to the nearest integer,
then clamped per axis. -/
def specMoveTarget (gridSize : Int) (containerSize : ℚ)
    (rectLeft rectTop clientX clientY : ℚ) (off : Offset) (p : Piece) : Int × Int :=
  let cellSize := containerSize / (gridSize : ℚ)
  let tx := jsRound ((clientX - rectLeft - off.x) / cellSize)
  let ty := jsRound ((clientY - rectTop - off.y) / cellSize)
  (max 0 (min (gridSize - p.width) tx), max 0 (min (gridSize - p.height) ty))

/-- C4: during an active drag a pointer-move rewrites exactly the
dragged piece to the spec-prescribed clamped cell (`specMoveTarget`)
and leaves every other piece untouched in place; the clamped target
always lies within `[0, gridSize - width] × [0, gridSize - height]`,
so out-of-range pointers are resolved by clamping, never an error. -/
theorem c4_pointer_move_update (gridSize : Int) (containerSize : ℚ)
    (rectLeft rectTop clientX clientY : ℚ) (s : AppState) (did : String)
    (hdid : s.draggingId = some did) :
    (handleMove gridSize containerSize rectLeft rectTop clientX clientY s).pieces =
      s.pieces.map (fun p =>
        if p.id = did then
          { p with
            currentX := (specMoveTarget gridSize containerSize rectLeft rectTop
              clientX clientY s.offset p).1
            currentY := (specMoveTarget gridSize containerSize rectLeft rectTop
              clientX clientY s.offset p).2 }
        else p) ∧
    (∀ p : Piece, p.width ≤ gridSize → p.height ≤ gridSize →
      0 ≤ (specMoveTarget gridSize containerSize rectLeft rectTop
            clientX clientY s.offset p).1 ∧
      (specMoveTarget gridSize containerSize rectLeft rectTop
            clientX clientY s.offset p).1 ≤ gridSize - p.width ∧
      0 ≤ (specMoveTarget gridSize containerSize rectLeft rectTop
            clientX clientY s.offset p).2 ∧
      (specMoveTarget gridSize containerSize rectLeft rectTop
            clientX clientY s.offset p).2 ≤ gridSize - p.height) := by
  constructor
  · rw [handleMove_pieces gridSize containerSize rectLeft rectTop clientX clientY s did hdid]
    refine List.map_congr_left (fun p _ => ?_)
    unfold movePiece specMoveTarget
    split <;> rfl
  · intro p hw hh
    unfold specMoveTarget
    have hx := clamp_bounds 0 (gridSize - p.width)
      (jsRound ((clientX - rectLeft - s.offset.x) / (containerSize / (gridSize : ℚ))))
      (by omega)
    have hy := clamp_bounds 0 (gridSize - p.height)
      (jsRound ((clientY - rectTop - s.offset.y) / (containerSize / (gridSize : ℚ))))
      (by omega)
    exact ⟨hx.1, hx.2, hy.1, hy.2⟩

/-- A width-4 piece being dragged on a 10-wide grid (scenario B). -/
def w4Piece : Piece :=
  { id := "d", originalX := 0, originalY := 0, currentX := 1, currentY := 4,
    width := 4, height := 1, isLocked := false }

/-- The state dragging `w4Piece` with a zero grab offset. -/
def w4State : AppState :=
  { pieces := [w4Piece], draggingId := some "d",
    offset := { x := 0, y := 0 }, isSolved := false }

/-- Witness for C4: pointer x = 480 px on a 600 px container over a
10-wide grid maps to cell 8; for the width-4 piece the clamp yields
`currentX = 6 = gridSize - width`. -/
theorem c4_witness :
    w4State.draggingId = some "d" ∧
    (handleMove 10 600 0 0 480 270 w4State).pieces.map Piece.currentX = [6] := by
  have h := (c4_pointer_move_update 10 600 0 0 480 270 w4State "d" rfl).1
  refine ⟨rfl, ?_⟩
  rw [show (handleMove 10 600 0 0 480 270 w4State).pieces = _ from h]
  norm_num [w4State, w4Piece, specMoveTarget, jsRound]


/-- C2: on a pointer-up with an active drag on piece `dp` (unlocked,
as every dragged piece is): if `dp` sits exactly on its home cell it
becomes locked and the sequence is re-ordered to all locked pieces
first, each group keeping its relative order, with the solved flag
set when every piece is then locked; otherwise the pieces are left
completely unchanged and `dp` stays unlocked where it was.  The
dragging id is cleared in either case. -/
theorem c2_release_lock (s : AppState) (did : String) (dp : Piece)
    (hdid : s.draggingId = some did)
    (hfind : s.pieces.find? (fun p => p.id = did) = some dp)
    (hdplk : dp.isLocked = false) :
    ((dp.currentX = dp.originalX ∧ dp.currentY = dp.originalY) →
       { dp with isLocked := true } ∈ (handleEnd s).pieces ∧
       (handleEnd s).pieces.filter (fun p => p.isLocked) =
         (s.pieces.map (lockIf did)).filter (fun p => p.isLocked) ∧
       (handleEnd s).pieces.filter (fun p => !p.isLocked) =
         (s.pieces.map (lockIf did)).filter (fun p => !p.isLocked) ∧
       (handleEnd s).pieces =
         (handleEnd s).pieces.filter (fun p => p.isLocked) ++
           (handleEnd s).pieces.filter (fun p => !p.isLocked) ∧
       ((∀ q ∈ (handleEnd s).pieces, q.isLocked = true) →
         (handleEnd s).isSolved = true)) ∧
    (¬ (dp.currentX = dp.originalX ∧ dp.currentY = dp.originalY) →
       (handleEnd s).pieces = s.pieces ∧ (handleEnd s).isSolved = s.isSolved ∧
       dp ∈ (handleEnd s).pieces ∧ dp.isLocked = false) ∧
    (handleEnd s).draggingId = none := by
  have hdpid : dp.id = did :=
    of_decide_eq_true
      (@List.find?_some Piece (fun p => decide (p.id = did)) dp s.pieces hfind)
  have hdpmem : dp ∈ s.pieces := List.mem_of_find?_eq_some hfind
  have heqEnd : handleEnd s =
      (if dp.currentX = dp.originalX ∧ dp.currentY = dp.originalY then
        { pieces := (s.pieces.map (lockIf did)).filter (fun p => p.isLocked) ++
            (s.pieces.map (lockIf did)).filter (fun p => !p.isLocked)
          draggingId := none
          offset := s.offset
          isSolved :=
            if ((s.pieces.map (lockIf did)).filter (fun p => p.isLocked) ++
                (s.pieces.map (lockIf did)).filter (fun p => !p.isLocked)).all
                  (fun p => p.isLocked) = true then true
            else s.isSolved }
      else { s with draggingId := none }) := by
    unfold handleEnd
    rw [hdid]; dsimp only
    rw [hfind]
  by_cases hhome : dp.currentX = dp.originalX ∧ dp.currentY = dp.originalY
  · rw [if_pos hhome] at heqEnd
    refine ⟨fun _ => ?_, fun hnh => absurd hhome hnh, by rw [heqEnd]⟩
    have hlockdp : lockIf did dp = { dp with isLocked := true } := by
      unfold lockIf; rw [if_pos hdpid]
    have hupdmem : { dp with isLocked := true } ∈ s.pieces.map (lockIf did) :=
      List.mem_map.mpr ⟨dp, hdpmem, hlockdp⟩
    have hLσ : ((s.pieces.map (lockIf did)).filter (fun p => p.isLocked)).filter
        (fun p => p.isLocked) = (s.pieces.map (lockIf did)).filter (fun p => p.isLocked) :=
      List.filter_eq_self.mpr (fun q hq => (List.mem_filter.mp hq).2)
    have hUσ : ((s.pieces.map (lockIf did)).filter (fun p => !p.isLocked)).filter
        (fun p => p.isLocked) = [] := by
      refine List.filter_eq_nil_iff.mpr (fun q hq => ?_)
      have := (List.mem_filter.mp hq).2
      simp only [Bool.not_eq_true'] at this
      simp [this]
    have hLτ : ((s.pieces.map (lockIf did)).filter (fun p => p.isLocked)).filter
        (fun p => !p.isLocked) = [] := by
      refine List.filter_eq_nil_iff.mpr (fun q hq => ?_)
      have := (List.mem_filter.mp hq).2
      simp [this]
    have hUτ : ((s.pieces.map (lockIf did)).filter (fun p => !p.isLocked)).filter
        (fun p => !p.isLocked) = (s.pieces.map (lockIf did)).filter (fun p => !p.isLocked) :=
      List.filter_eq_self.mpr (fun q hq => (List.mem_filter.mp hq).2)
    refine ⟨?_, ?_, ?_, ?_, ?_⟩
    · rw [heqEnd]
      exact (handleEnd_final_perm (s.pieces.map (lockIf did))).mem_iff.mpr hupdmem
    · rw [heqEnd]
      dsimp only
      rw [List.filter_append, hLσ, hUσ, List.append_nil]
    · rw [heqEnd]
      dsimp only
      rw [List.filter_append, hLτ, hUτ, List.nil_append]
    · rw [heqEnd]
      dsimp only
      rw [List.filter_append, hLσ, hUσ, List.append_nil,
          List.filter_append, hLτ, hUτ, List.nil_append]
    · intro hall
      rw [heqEnd] at hall ⊢
      dsimp only at hall ⊢
      rw [if_pos (List.all_eq_true.mpr hall)]
  · rw [if_neg hhome] at heqEnd
    refine ⟨fun hh => absurd hh hhome, fun _ => ?_, by rw [heqEnd]⟩
    rw [heqEnd]
    exact ⟨rfl, rfl, hdpmem, hdplk⟩

/-- A 1×1 unlocked piece sitting exactly on its home cell. -/
def wC2Piece : Piece :=
  { id := "a", originalX := 0, originalY := 0, currentX := 0, currentY := 0,
    width := 1, height := 1, isLocked := false }

/-- A state dragging `wC2Piece` while the locked sample piece is present. -/
def wC2State : AppState :=
  { pieces := [wPieceL, wC2Piece], draggingId := some "a",
    offset := { x := 0, y := 0 }, isSolved := false }

/-- Witness for C2: releasing the drag on a piece at its home locks it
and clears the drag. -/
theorem c2_witness :
    (wC2State.draggingId = some "a" ∧
     wC2State.pieces.find? (fun p => p.id = "a") = some wC2Piece ∧
     wC2Piece.isLocked = false ∧
     wC2Piece.currentX = wC2Piece.originalX ∧ wC2Piece.currentY = wC2Piece.originalY) ∧
    ({ wC2Piece with isLocked := true } ∈ (handleEnd wC2State).pieces ∧
     (handleEnd wC2State).draggingId = none) := by
  have hf : wC2State.pieces.find? (fun p => p.id = "a") = some wC2Piece := by decide
  have h := c2_release_lock wC2State "a" wC2Piece rfl hf rfl
  exact ⟨⟨rfl, hf, rfl, rfl, rfl⟩, (h.1 ⟨rfl, rfl⟩).1, h.2.2⟩

@[simp] lemma scatterPieces_pieces (gs : Int) (rand : Nat → ℚ × ℚ)
    (shuffle : List Piece → List Piece) (s : AppState) :
    (scatterPieces gs rand shuffle s).pieces =
      s.pieces.filter (fun p => p.isLocked) ++
        shuffle (scatterList gs rand 0 (s.pieces.filter (fun p => !p.isLocked))) := rfl

/-- C6: a scatter call leaves the locked pieces literally unchanged
(as the unmoved prefix of the sequence), never touches `isLocked`, the
solved flag, the drag state or the offset, re-samples every unlocked
piece within grid bounds, and only permutes the unlocked group. -/
theorem c6_scatter_frame (gs : Int) (rand : Nat → ℚ × ℚ)
    (shuffle : List Piece → List Piece) (s : AppState)
    (hrand : ∀ i, 0 ≤ (rand i).1 ∧ (rand i).1 < 1 ∧ 0 ≤ (rand i).2 ∧ (rand i).2 < 1)
    (hshuffle : ∀ l, List.Perm (shuffle l) l)
    (hib : InBounds gs s) :
    (scatterPieces gs rand shuffle s).pieces.filter (fun p => p.isLocked) =
      s.pieces.filter (fun p => p.isLocked) ∧
    (scatterPieces gs rand shuffle s).isSolved = s.isSolved ∧
    (scatterPieces gs rand shuffle s).draggingId = s.draggingId ∧
    (scatterPieces gs rand shuffle s).offset = s.offset ∧
    List.Perm ((scatterPieces gs rand shuffle s).pieces.map (fun p => (p.id, p.isLocked)))
      (s.pieces.map (fun p => (p.id, p.isLocked))) ∧
    (scatterPieces gs rand shuffle s).pieces =
      (scatterPieces gs rand shuffle s).pieces.filter (fun p => p.isLocked) ++
        (scatterPieces gs rand shuffle s).pieces.filter (fun p => !p.isLocked) ∧
    List.Perm
      (((scatterPieces gs rand shuffle s).pieces.filter (fun p => !p.isLocked)).map skel)
      ((s.pieces.filter (fun p => !p.isLocked)).map skel) ∧
    (∀ q ∈ (scatterPieces gs rand shuffle s).pieces, q.isLocked = false →
      0 ≤ q.currentX ∧ q.currentX + q.width ≤ gs ∧
      0 ≤ q.currentY ∧ q.currentY + q.height ≤ gs) := by
  have hssu : ∀ q ∈ shuffle (scatterList gs rand 0 (s.pieces.filter (fun p => !p.isLocked))),
      q.isLocked = false := by
    intro q hq
    have hq' := (hshuffle _).mem_iff.mp hq
    rcases mem_scatterList gs rand hrand 0 _ q hq' with ⟨p, hp, rx, ry, _, _, _, _, rfl⟩
    have := (List.mem_filter.mp hp).2
    simp only [Bool.not_eq_true'] at this
    simpa using this
  have e1 : List.filter (fun p => p.isLocked) (s.pieces.filter (fun p => p.isLocked)) =
      s.pieces.filter (fun p => p.isLocked) :=
    List.filter_eq_self.mpr (fun q hq => (List.mem_filter.mp hq).2)
  have e2 : List.filter (fun p => p.isLocked)
      (shuffle (scatterList gs rand 0 (s.pieces.filter (fun p => !p.isLocked)))) = [] :=
    List.filter_eq_nil_iff.mpr (fun q hq => by simp [hssu q hq])
  have e3 : List.filter (fun p => !p.isLocked) (s.pieces.filter (fun p => p.isLocked)) = [] :=
    List.filter_eq_nil_iff.mpr (fun q hq => by simp [(List.mem_filter.mp hq).2])
  have e4 : List.filter (fun p => !p.isLocked)
      (shuffle (scatterList gs rand 0 (s.pieces.filter (fun p => !p.isLocked)))) =
      shuffle (scatterList gs rand 0 (s.pieces.filter (fun p => !p.isLocked))) :=
    List.filter_eq_self.mpr (fun q hq => by simp [hssu q hq])
  have hfL : (scatterPieces gs rand shuffle s).pieces.filter (fun p => p.isLocked) =
      s.pieces.filter (fun p => p.isLocked) := by
    rw [scatterPieces_pieces, List.filter_append, e1, e2, List.append_nil]
  have hfU : (scatterPieces gs rand shuffle s).pieces.filter (fun p => !p.isLocked) =
      shuffle (scatterList gs rand 0 (s.pieces.filter (fun p => !p.isLocked))) := by
    rw [scatterPieces_pieces, List.filter_append, e3, e4, List.nil_append]
  refine ⟨hfL, rfl, rfl, rfl, ?_, ?_, ?_, ?_⟩
  · exact scatterPieces_map_perm gs rand shuffle s (fun p => (p.id, p.isLocked))
      (fun rx ry p => rfl) hshuffle
  · rw [hfL, hfU, scatterPieces_pieces]
  · rw [hfU]
    have h1 := (hshuffle (scatterList gs rand 0
      (s.pieces.filter (fun p => !p.isLocked)))).map skel
    rwa [scatterList_map_eq gs rand skel (fun rx ry p => skel_scatterOne gs rx ry p)] at h1
  · intro q hq hqu
    rw [scatterPieces_pieces] at hq
    rcases List.mem_append.mp hq with h | h
    · exact absurd ((List.mem_filter.mp h).2) (by simp [hqu])
    · have hq' := (hshuffle _).mem_iff.mp h
      rcases mem_scatterList gs rand hrand 0 _ q hq' with ⟨p, hp, rx, ry, h0, h1, h2, h3, rfl⟩
      have hpmem := (List.mem_filter.mp hp).1
      have hpb := hib p hpmem
      exact scatterOne_bounds gs rx ry p h0 h1 h2 h3 (by omega) (by omega)

/-- Witness for C6 at the sample mid-drag state. -/
theorem c6_witness :
    ((∀ i, 0 ≤ (wRand i).1 ∧ (wRand i).1 < 1 ∧ 0 ≤ (wRand i).2 ∧ (wRand i).2 < 1) ∧
     (∀ l : List Piece, List.Perm ((fun l => l) l) l) ∧ InBounds 6 wState) ∧
    ((scatterPieces 6 wRand (fun l => l) wState).pieces.filter (fun p => p.isLocked) =
       wState.pieces.filter (fun p => p.isLocked) ∧
     (scatterPieces 6 wRand (fun l => l) wState).isSolved = wState.isSolved) := by
  have h1 : ∀ i, 0 ≤ (wRand i).1 ∧ (wRand i).1 < 1 ∧ 0 ≤ (wRand i).2 ∧ (wRand i).2 < 1 := by
    intro i; norm_num [wRand]
  have h2 : ∀ l : List Piece, List.Perm ((fun l => l) l) l := fun l => List.Perm.refl l
  have h3 : InBounds 6 wState := by unfold InBounds; decide
  have h := c6_scatter_frame 6 wRand (fun l => l) wState h1 h2 h3
  exact ⟨⟨h1, h2, h3⟩, h.1, h.2.1⟩

/-- The home-avoidance property C7 attributes to scatter, stated from
the claim's words: placement resamples a candidate equal to the home
position for up to 10 attempts before accepting it — so an unlocked
piece ends on its home cell only if every sample within the first ten
of its stream was the home cell.  Contrapositive form: if some sample
among the first ten maps to a non-home cell, the piece does not end
at home. -/
def ScatterAvoidsHome (gs : Int) (rand : Nat → ℚ × ℚ)
    (shuffle : List Piece → List Piece) (s : AppState) : Prop :=
  ∀ q ∈ (scatterPieces gs rand shuffle s).pieces, q.isLocked = false →
    (∃ j : Nat, j < 10 ∧
      (jsFloor ((rand j).1 * ((gs : ℚ) - (q.width : ℚ) + 1)) ≠ q.originalX ∨
       jsFloor ((rand j).2 * ((gs : ℚ) - (q.height : ℚ) + 1)) ≠ q.originalY)) →
    ¬ (q.currentX = q.originalX ∧ q.currentY = q.originalY)

/-- A lone 1×1 unlocked piece with home `(0, 0)`, currently at `(1, 1)`,
on a 2×2 grid. -/
def c7Piece : Piece :=
  { id := "c", originalX := 0, originalY := 0, currentX := 1, currentY := 1,
    width := 1, height := 1, isLocked := false }

/-- The state holding only `c7Piece`. -/
def c7State : AppState :=
  { pieces := [c7Piece], draggingId := none,
    offset := { x := 0, y := 0 }, isSolved := false }

/-- A random stream whose first sample maps the 1×1 piece to its home
cell `(0, 0)` and whose every later sample maps it to `(1, 1)`. -/
def c7Rand : Nat → ℚ × ℚ := fun i => if i = 0 then (0, 0) else (3/4, 3/4)

/-- Counterexample to C7: `scatterPieces` accepts the very first
sample even when it is the piece's home position, although the next
sample of the stream is a non-home cell — there is no resampling. -/
theorem c7_counterexample : ¬ ScatterAvoidsHome 2 c7Rand (fun l => l) c7State := by
  intro h
  have hres : (scatterPieces 2 c7Rand (fun l => l) c7State).pieces =
      [scatterOne 2 0 0 c7Piece] := by
    rw [scatterPieces_pieces]
    norm_num [c7State, c7Piece, scatterList, c7Rand]
  have hmem : scatterOne 2 0 0 c7Piece ∈ (scatterPieces 2 c7Rand (fun l => l) c7State).pieces := by
    rw [hres]; exact List.mem_singleton_self _
  have hx : (scatterOne 2 0 0 c7Piece).currentX = (scatterOne 2 0 0 c7Piece).originalX := by
    norm_num [scatterOne, jsFloor, c7Piece]
  have hy : (scatterOne 2 0 0 c7Piece).currentY = (scatterOne 2 0 0 c7Piece).originalY := by
    norm_num [scatterOne, jsFloor, c7Piece]
  have hsecond : jsFloor ((c7Rand 1).1 *
      ((2 : ℚ) - ((scatterOne 2 0 0 c7Piece).width : ℚ) + 1)) ≠
      (scatterOne 2 0 0 c7Piece).originalX := by
    norm_num [c7Rand, jsFloor, scatterOne, c7Piece]
  exact h (scatterOne 2 0 0 c7Piece) hmem rfl
    ⟨1, by norm_num, Or.inl hsecond⟩ ⟨hx, hy⟩

/-- C7 as amended: scatter has no home avoidance.  Each unlocked piece
is placed by exactly one sample pair of the stream — the k-th unlocked
piece by sample `i + k` — and the result is accepted unconditionally,
including when it coincides with the home cell. -/
theorem c7_scatter_single_sample (gs : Int) (rand : Nat → ℚ × ℚ) :
    (∀ (shuffle : List Piece → List Piece) (s : AppState),
      (scatterPieces gs rand shuffle s).pieces =
        s.pieces.filter (fun p => p.isLocked) ++
          shuffle (scatterList gs rand 0 (s.pieces.filter (fun p => !p.isLocked)))) ∧
    (∀ (ps : List Piece) (i k : Nat) (hk : k < ps.length)
        (hk2 : k < (scatterList gs rand i ps).length),
      (scatterList gs rand i ps).get ⟨k, hk2⟩ =
        scatterOne gs (rand (i + k)).1 (rand (i + k)).2 (ps.get ⟨k, hk⟩)) := by
  refine ⟨fun shuffle s => rfl, fun ps => ?_⟩
  induction ps with
  | nil => intro i k hk; exact absurd hk (Nat.not_lt_zero k)
  | cons p ps ih =>
      intro i k hk hk2
      cases k with
      | zero => simp [scatterList]
      | succ k =>
          have hk' : k < ps.length := Nat.lt_of_succ_lt_succ hk
          have hlen : (scatterList gs rand i (p :: ps)).length =
              (scatterList gs rand (i + 1) ps).length + 1 := by
            simp [scatterList]
          have hk2' : k < (scatterList gs rand (i + 1) ps).length := by omega
          have hstep : (scatterList gs rand i (p :: ps)).get ⟨k + 1, hk2⟩ =
              (scatterList gs rand (i + 1) ps).get ⟨k, hk2'⟩ := rfl
          rw [hstep, ih (i + 1) k hk' hk2']
          have harith : i + 1 + k = i + (k + 1) := by omega
          rw [harith]
          rfl

/-- Witness for the amended C7 at the concrete one-piece list: the
first (and only) unlocked piece is placed by sample 0 alone. -/
theorem c7_witness :
    (0 < ([c7Piece] : List Piece).length) ∧
    (scatterList 2 c7Rand 0 [c7Piece]).get
        ⟨0, by simp [scatterList]⟩ =
      scatterOne 2 (c7Rand 0).1 (c7Rand 0).2 c7Piece := by
  refine ⟨by norm_num, ?_⟩
  have h := (c7_scatter_single_sample 2 c7Rand).2 [c7Piece] 0 0 (by norm_num)
    (by simp [scatterList])
  simpa using h

/-- The old-instance piece still referenced by the in-flight drag. -/
def c8OldPiece : Piece :=
  { id := "a", originalX := 0, originalY := 0, currentX := 2, currentY := 2,
    width := 1, height := 1, isLocked := false }

/-- A mid-drag state: piece `a` is being dragged with a recorded grab
offset when the reset arrives. -/
def c8MidDragState : AppState :=
  { pieces := [c8OldPiece], draggingId := some "a",
    offset := { x := 30, y := 40 }, isSolved := false }

/-- The freshly generated replacement layout. -/
def c8NewGen : List Piece :=
  [{ id := "n1", originalX := 0, originalY := 0, currentX := 1, currentY := 0,
     width := 1, height := 1, isLocked := false }]

/-- C8, evaluated on the code: `initPuzzle` replaces the pieces
wholesale (no old piece survives) and clears the solved flag, but it
does NOT clear the dragging id or the grab offset — a reset arriving
mid-drag leaves the stale drag reference of the old instance in the
new state, contradicting the claimed atomic discard. -/
theorem c8_reset_keeps_stale_drag :
    (∀ (generated : List Piece) (s : AppState),
      (initPuzzle generated s).pieces = generated ∧
      (initPuzzle generated s).isSolved = false ∧
      (initPuzzle generated s).draggingId = s.draggingId ∧
      (initPuzzle generated s).offset = s.offset) ∧
    (initPuzzle c8NewGen c8MidDragState).draggingId = some "a" ∧
    (initPuzzle c8NewGen c8MidDragState).offset = { x := 30, y := 40 } ∧
    (initPuzzle c8NewGen c8MidDragState).pieces = c8NewGen :=
  ⟨fun _ _ => ⟨rfl, rfl, rfl, rfl⟩, rfl, rfl, rfl⟩

/-- The guard C9 attributes to drag-start, stated from the claim's
words: a drag-start arriving while another drag is active is rejected
and changes nothing. -/
def StartDragGuarded : Prop :=
  ∀ (gs : Int) (cs rl rt cx cy : ℚ) (clickedPiece : Piece) (s : AppState),
    s.draggingId ≠ none →
    startDrag gs cs rl rt cx cy clickedPiece s = s

/-- A second unlocked piece, distinct from the one being dragged. -/
def c9Piece2 : Piece :=
  { id := "e", originalX := 1, originalY := 0, currentX := 4, currentY := 1,
    width := 1, height := 1, isLocked := false }

/-- A state already dragging piece `a` when a drag-start on piece `e`
arrives. -/
def c9State : AppState :=
  { pieces := [wPieceA, c9Piece2], draggingId := some "a",
    offset := { x := 0, y := 0 }, isSolved := false }

/-- Counterexample to C9's guard: `startDrag` has no check for an
active drag — a drag-start on an unlocked piece while piece `a` is
being dragged replaces the dragging id (and is not rejected). -/
theorem c9_counterexample : ¬ StartDragGuarded := by
  intro h
  have heq := h 6 600 0 0 100 100 c9Piece2 c9State (by simp [c9State])
  have hdrag := congrArg AppState.draggingId heq
  rw [startDrag_of_unlocked 6 600 0 0 100 100 c9Piece2 c9State rfl] at hdrag
  exact absurd (Option.some.inj hdrag) (by decide)

/-- C9 as amended: at most one piece can be dragging at a time (the
drag reference is a single nullable id), a drag-end with no active
drag is a no-op, and a drag-start on a locked piece is rejected; but a
drag-start arriving during an active drag is NOT rejected — it simply
replaces the active drag with the clicked piece. -/
theorem c9_drag_guards :
    (∀ (s : AppState) (p q : Piece),
      s.draggingId = some p.id → s.draggingId = some q.id → p.id = q.id) ∧
    (∀ s : AppState, s.draggingId = none → handleEnd s = s) ∧
    (∀ (gs : Int) (cs rl rt cx cy : ℚ) (c : Piece) (s : AppState),
      c.isLocked = true → startDrag gs cs rl rt cx cy c s = s) ∧
    (∀ (gs : Int) (cs rl rt cx cy : ℚ) (c : Piece) (s : AppState),
      c.isLocked = false →
      (startDrag gs cs rl rt cx cy c s).draggingId = some c.id) := by
  refine ⟨?_, ?_, ?_, ?_⟩
  · intro s p q hp hq
    exact Option.some.inj (hp.symm.trans hq)
  · intro s hnone
    unfold handleEnd; rw [hnone]
  · intro gs cs rl rt cx cy c s hc
    exact startDrag_of_locked gs cs rl rt cx cy c s hc
  · intro gs cs rl rt cx cy c s hc
    rw [startDrag_of_unlocked gs cs rl rt cx cy c s hc]

/-- Witness for the amended C9 at the concrete state: drag-end is a
no-op with no active drag, and a drag-start during an active drag
re-targets the drag to the clicked piece. -/
theorem c9_witness :
    (c7State.draggingId = none ∧ handleEnd c7State = c7State) ∧
    (c9Piece2.isLocked = false ∧
     (startDrag 6 600 0 0 100 100 c9Piece2 c9State).draggingId = some "e") := by
  have h1 := c9_drag_guards.2.1 c7State rfl
  have h2 := c9_drag_guards.2.2.2 6 600 0 0 100 100 c9Piece2 c9State rfl
  exact ⟨⟨rfl, h1⟩, rfl, h2⟩

end AfterImage
